import Mathlib

/-!
Verification of the transportation LP script (`transportation.py`).

The script builds, with an algebraic modelling layer, the linear program

  minimize    sum_{f,w} cost[f][w] * X[f,w]
  subject to  sum_w X[f,w] <= capacity[f]   (CapacityCons, one per facility)
              sum_f X[f,w] >= demand[w]     (DemandCons, one per warehouse)
              X[f,w] >= 0

for the hardcoded data `capacities = [2,3,3]`, `demands = [4,4]`,
`costs = [[1,2],[2,2],[2,3]]`, hands it to an external LP solver, and then
prints status, termination condition, nonzero shipment quantities, the dual
prices of the capacity constraints and the objective value.

We embed the model-building code shallowly over the rationals: parameters are
read from the literal lists, the decision variable is a function
`X : Nat -> Nat -> Rat` of which only the entries with `f < nF`, `w < nW`
are constrained, and the constraint and objective rules are translated
directly from `capacity_rule`, `demand_rule` and `obj_rule`. The sequence of
`print` calls after the solve (lines 116-141 of the script) is embedded as a
list of structured output lines, a function of the results reported by the
solver.
-/

namespace Transportation

/-- `capacities = [2, 3, 3]` (line 7). -/
def capacities : List ℚ := [2, 3, 3]

/-- `demands = [4, 4]` (line 9). -/
def demands : List ℚ := [4, 4]

/-- `costs = [[1,2],[2,2],[2,3]]` (lines 11-13). -/
def costs : List (List ℚ) := [[1, 2], [2, 2], [2, 3]]

/-- `nF = len(capacities)` (line 15), the number of facilities. -/
def nF : ℕ := capacities.length

/-- `nW = len(demands)` (line 16), the number of warehouses. -/
def nW : ℕ := demands.length

/-- `def cost_func(model,f,w): return costs[f][w]` (lines 41-42).
Python raises an `IndexError` on an out-of-range index; we model the
possibly-failing lookup with `Option`: `none` is a raised `IndexError`. -/
def cost_func (cs : List (List ℚ)) (f w : ℕ) : Option ℚ :=
  cs[f]?.bind fun row => row[w]?

/-- `model.cost = pe.Param(model.facilities, model.warehouses, initialize =
cost_func)` (line 43): on a concrete model the parameter is built eagerly by
calling `cost_func` at every index pair `(f, w)` with `f < nF`, `w < nW`.
This returns `true` exactly when no call raises, i.e. when every lookup is
in range. -/
def paramConstructionOk (cs : List (List ℚ)) (numF numW : ℕ) : Bool :=
  (List.range numF).all fun f =>
    (List.range numW).all fun w => (cost_func cs f w).isSome

/-- The script is straight-line code with no exception handling:
`solver.solve` (line 114) is reached only if the parameter construction at
line 43 did not raise. -/
def solverInvoked (cs : List (List ℚ)) (numF numW : ℕ) : Bool :=
  paramConstructionOk cs numF numW

/-- The value of the cost parameter `model.cost[f,w]` once the model is
built: `costs[f][w]`, read as a total function (every access made by the
script is in range, see `cost_func_isSome`). -/
def cost (f w : ℕ) : ℚ := (cost_func costs f w).getD 0

/-- `model.capacity[f] = capacities[f]` (line 50). -/
def capacity (f : ℕ) : ℚ := capacities.getD f 0

/-- `model.demand[w] = demands[w]` (line 51). -/
def demand (w : ℕ) : ℚ := demands.getD w 0

/-- `capacity_rule` (lines 68-69): the constraint `CapacityCons[f]` is
`sum(model.X[f,w] for w in model.warehouses) <= model.capacity[f]`,
stated for general capacity and demand lists. -/
def capacity_rule (caps dems : List ℚ) (X : ℕ → ℕ → ℚ) (f : ℕ) : Prop :=
  ∑ w in Finset.range dems.length, X f w ≤ caps.getD f 0

/-- `demand_rule` (lines 80-81): the constraint `DemandCons[w]` is
`sum(model.X[f,w] for f in model.facilities) >= model.demand[w]`. -/
def demand_rule (caps dems : List ℚ) (X : ℕ → ℕ → ℚ) (w : ℕ) : Prop :=
  dems.getD w 0 ≤ ∑ f in Finset.range caps.length, X f w

/-- An assignment `X` satisfies the built model when every indexed variable
is nonnegative (`domain = pe.NonNegativeReals`, line 56), every
`CapacityCons[f]` holds (line 71) and every `DemandCons[w]` holds
(line 82). -/
def Feasible (caps dems : List ℚ) (X : ℕ → ℕ → ℚ) : Prop :=
  (∀ f < caps.length, ∀ w < dems.length, 0 ≤ X f w) ∧
  (∀ f < caps.length, capacity_rule caps dems X f) ∧
  (∀ w < dems.length, demand_rule caps dems X w)

/-- `obj_rule` (lines 91-92): the minimized objective is
`sum(model.cost[f,w] * model.X[f,w] for f in model.facilities
for w in model.warehouses)`. `model.OBJ()` (line 141) evaluates this
expression at the current values of `X`. -/
def OBJ (X : ℕ → ℕ → ℚ) : ℚ :=
  ∑ f in Finset.range nF, ∑ w in Finset.range nW, cost f w * X f w

/-- The optimal flow named by the specification:
`X[0,0]=2, X[1,1]=3, X[2,0]=2, X[2,1]=1`, all other entries `0`. -/
def Xstar : ℕ → ℕ → ℚ := fun f w =>
  match f, w with
  | 0, 0 => 2
  | 1, 1 => 3
  | 2, 0 => 2
  | 2, 1 => 1
  | _, _ => 0

lemma nF_eq : nF = 3 := rfl

lemma nW_eq : nW = 2 := rfl

lemma sum_range_two (g : ℕ → ℚ) : ∑ x in Finset.range 2, g x = g 0 + g 1 := by
  rw [Finset.sum_range_succ, Finset.sum_range_one]

lemma sum_range_three (g : ℕ → ℚ) :
    ∑ x in Finset.range 3, g x = g 0 + g 1 + g 2 := by
  rw [Finset.sum_range_succ, Finset.sum_range_succ, Finset.sum_range_one]

/-- Every cost lookup made while building the cost parameter of the
hardcoded model is in range. -/
lemma cost_func_isSome (f w : ℕ) (hf : f < nF) (hw : w < nW) :
    (cost_func costs f w).isSome := by
  have hf3 : f < 3 := hf
  have hw2 : w < 2 := hw
  interval_cases f <;> interval_cases w <;> rfl

/-- The flow named by the specification satisfies the built model. -/
lemma Xstar_feasible : Feasible capacities demands Xstar := by
  refine ⟨?_, ?_, ?_⟩
  · intro f hf w hw
    have hf3 : f < 3 := hf
    have hw2 : w < 2 := hw
    interval_cases f <;> interval_cases w <;> norm_num [Xstar]
  · intro f hf
    have hf3 : f < 3 := hf
    interval_cases f <;>
      norm_num [capacity_rule, Xstar, demands, capacities, sum_range_two]
  · intro w hw
    have hw2 : w < 2 := hw
    interval_cases w <;>
      norm_num [demand_rule, Xstar, demands, capacities, sum_range_three]

/-- The objective value of the specification's flow is `15`. -/
lemma OBJ_Xstar : OBJ Xstar = 15 := by
  norm_num [OBJ, cost, cost_func, costs, Xstar, nF_eq, nW_eq,
    sum_range_two, sum_range_three]

/-- Unfolding feasibility for the hardcoded instance into the six scalar
inequalities on the six indexed variables. -/
lemma feasible_ineqs (X : ℕ → ℕ → ℚ) (h : Feasible capacities demands X) :
    0 ≤ X 0 0 ∧ 0 ≤ X 0 1 ∧ 0 ≤ X 1 0 ∧ 0 ≤ X 1 1 ∧ 0 ≤ X 2 0 ∧ 0 ≤ X 2 1 ∧
    X 0 0 + X 0 1 ≤ 2 ∧ X 1 0 + X 1 1 ≤ 3 ∧ X 2 0 + X 2 1 ≤ 3 ∧
    4 ≤ X 0 0 + X 1 0 + X 2 0 ∧ 4 ≤ X 0 1 + X 1 1 + X 2 1 := by
  obtain ⟨hpos, hcap, hdem⟩ := h
  have h00 := hpos 0 (by norm_num [capacities]) 0 (by norm_num [demands])
  have h01 := hpos 0 (by norm_num [capacities]) 1 (by norm_num [demands])
  have h10 := hpos 1 (by norm_num [capacities]) 0 (by norm_num [demands])
  have h11 := hpos 1 (by norm_num [capacities]) 1 (by norm_num [demands])
  have h20 := hpos 2 (by norm_num [capacities]) 0 (by norm_num [demands])
  have h21 := hpos 2 (by norm_num [capacities]) 1 (by norm_num [demands])
  have hc0 := hcap 0 (by norm_num [capacities])
  have hc1 := hcap 1 (by norm_num [capacities])
  have hc2 := hcap 2 (by norm_num [capacities])
  have hd0 := hdem 0 (by norm_num [demands])
  have hd1 := hdem 1 (by norm_num [demands])
  norm_num [capacity_rule, demand_rule, capacities, demands,
    sum_range_two, sum_range_three] at hc0 hc1 hc2 hd0 hd1
  exact ⟨h00, h01, h10, h11, h20, h21, by linarith, by linarith, by linarith,
    by linarith, by linarith⟩

/-- The sum of a list of rationals equals the sum of its indexed reads:
`l.sum = sum_{i < len(l)} l[i]`. -/
lemma sum_getD (l : List ℚ) :
    ∑ i in Finset.range l.length, l.getD i 0 = l.sum := by
  induction l with
  | nil => simp
  | cons a t ih =>
    rw [List.length_cons, Finset.sum_range_succ', List.sum_cons, ← ih]
    simp [List.getD]
    ring

/-- Statuses reported by the external solver (`results.solver.status`,
line 119). -/
inductive SolverStatus
  | ok
  | warning
  | error
  | aborted
deriving DecidableEq

/-- Termination conditions reported by the external solver
(`results.solver.termination_condition`, line 120). -/
inductive TerminationCondition
  | optimal
  | infeasible
  | unbounded
  | other
deriving DecidableEq

/-- What the external solver hands back and the script reads afterwards:
the reported status and termination condition, the variable values
`model.X[f,w].value` and the dual values `model.dual[model.CapacityCons[f]]`
imported through the `Suffix` (line 23). -/
structure SolveResults where
  status : SolverStatus
  termination : TerminationCondition
  xval : ℕ → ℕ → ℚ
  capDual : ℕ → ℚ

/-- One line printed by the script after the solve.  The constructors cover
every `print` of lines 116-141; `demandDualLine` is included so that the
absence of demand-constraint duals in the output is expressible, the script
has no statement producing it. -/
inductive OutputLine
  | blank
  | statusLine (s : SolverStatus)
  | terminationLine (tc : TerminationCondition)
  | singleXValue (v : ℚ)
  | transportLine (units : ℚ) (f w : ℕ)
  | capacityDualLine (f : ℕ) (v : ℚ)
  | demandDualLine (w : ℕ) (v : ℚ)
  | objectiveLine (v : ℚ)
deriving DecidableEq

/-- Whether a line is a demand-constraint dual price. -/
def isDemandDualLine : OutputLine → Bool
  | .demandDualLine _ _ => true
  | _ => false

/-- Lines 129-132: for each facility and warehouse, print the shipped
quantity exactly when `model.X[f,w].value != 0`. -/
def transportLines (r : SolveResults) : List OutputLine :=
  (List.range nF).flatMap fun f =>
    (List.range nW).filterMap fun w =>
      if r.xval f w ≠ 0 then some (.transportLine (r.xval f w) f w) else none

/-- Everything the script prints after `solver.solve` returns
(lines 116-141), in order: a blank line, the status, the termination
condition, the value of `X[0,1]`, a blank line, the nonzero shipment lines,
a blank line, the dual price of `CapacityCons[f]` for each facility `f`
(lines 136-137; the loop body only prints capacity-constraint duals, the
demand constraints are left to a comment), and finally the objective value
`model.OBJ()` evaluated at the returned variable values.  None of these
statements is guarded by the solver status or termination condition. -/
def postSolveOutput (r : SolveResults) : List OutputLine :=
  [.blank, .statusLine r.status, .terminationLine r.termination,
    .singleXValue (r.xval 0 1), .blank]
  ++ transportLines r
  ++ [.blank]
  ++ ((List.range nF).map fun f => .capacityDualLine f (r.capDual f))
  ++ [.objectiveLine (OBJ r.xval)]

/-- The objective as the specification words it: the sum over all `f`, `w`
of `cost[f][w] * X[f,w]`, read directly from the cost matrix.  Stated from
the spec to compare with `OBJ`, which is translated from `obj_rule`. -/
def specObjective (X : ℕ → ℕ → ℚ) : ℚ :=
  ∑ f in Finset.range nF, ∑ w in Finset.range nW,
    (costs.getD f []).getD w 0 * X f w

/-- A solver result used as a concrete example: a successful solve
returning the specification's flow. -/
def exampleResults : SolveResults :=
  ⟨SolverStatus.ok, TerminationCondition.optimal, Xstar, fun _ => 0⟩

/-- A solver result reporting infeasibility (all values at their
defaults). -/
def infeasibleResults : SolveResults :=
  ⟨SolverStatus.warning, TerminationCondition.infeasible,
    fun _ _ => 0, fun _ => 0⟩

/-- A cost matrix with one extra row: its row count differs from the
facility count of the hardcoded instance. -/
def badCosts : List (List ℚ) := [[1, 2], [2, 2], [2, 3], [9, 9]]

/-- The objective of the hardcoded instance, written out. -/
lemma OBJ_expand (X : ℕ → ℕ → ℚ) :
    OBJ X = X 0 0 + 2 * X 0 1 + 2 * X 1 0 + 2 * X 1 1 + 2 * X 2 0 + 3 * X 2 1 := by
  norm_num [OBJ, cost, cost_func, costs, nF_eq, nW_eq,
    sum_range_two, sum_range_three]
  ring

/-- Every line of the shipment loop is a `transportLine`. -/
lemma mem_transportLines (r : SolveResults) (x : OutputLine)
    (hx : x ∈ transportLines r) : ∃ u f w, x = OutputLine.transportLine u f w := by
  simp only [transportLines, List.mem_flatMap, List.mem_filterMap,
    List.mem_range] at hx
  obtain ⟨f, _, w, _, hw⟩ := hx
  by_cases h : r.xval f w ≠ 0
  · rw [if_pos h] at hw
    exact ⟨r.xval f w, f, w, (Option.some.injEq _ _ ▸ hw).symm⟩
  · rw [if_neg h] at hw
    exact absurd hw (by simp)

/-- The script never prints a dual price for a demand constraint: the loop
at lines 136-137 only covers the capacity constraints. -/
lemma no_demand_dual_output (r : SolveResults) (x : OutputLine)
    (hx : x ∈ postSolveOutput r) : isDemandDualLine x = false := by
  simp only [postSolveOutput, List.mem_append, List.mem_cons, List.mem_map,
    List.mem_range, List.not_mem_nil, or_false, List.mem_singleton] at hx
  rcases hx with ((((h | h | h | h | h) | h) | h) | ⟨g, _, h⟩) | h
  · subst h; rfl
  · subst h; rfl
  · subst h; rfl
  · subst h; rfl
  · subst h; rfl
  · obtain ⟨u, f, w, h⟩ := mem_transportLines r x h
    subst h; rfl
  · subst h; rfl
  · rw [← h]; rfl
  · subst h; rfl

/-- C2: for every facility `f`, the constraint `CapacityCons[f]` built by
`capacity_rule` is exactly the inequality `sum_w X[f,w] <= capacity[f]`, and
every `X` satisfying the built model satisfies it. -/
theorem C2_capacity_constraint (caps dems : List ℚ) (X : ℕ → ℕ → ℚ) (f : ℕ)
    (hf : f < caps.length) (hX : Feasible caps dems X) :
    (capacity_rule caps dems X f ↔
      ∑ w in Finset.range dems.length, X f w ≤ caps.getD f 0) ∧
    ∑ w in Finset.range dems.length, X f w ≤ caps.getD f 0 :=
  ⟨Iff.rfl, hX.2.1 f hf⟩

/-- Witness for C2 at the hardcoded instance, facility `0` and the
specification's flow. -/
theorem C2_capacity_constraint_witness :
    0 < capacities.length ∧ Feasible capacities demands Xstar ∧
    ∑ w in Finset.range demands.length, Xstar 0 w ≤ capacities.getD 0 0 :=
  ⟨by decide, Xstar_feasible,
    (C2_capacity_constraint capacities demands Xstar 0 (by decide)
      Xstar_feasible).2⟩

/-- C3: for every warehouse `w`, the constraint `DemandCons[w]` built by
`demand_rule` is exactly the inequality `sum_f X[f,w] >= demand[w]`, and
every `X` satisfying the built model satisfies it. -/
theorem C3_demand_constraint (caps dems : List ℚ) (X : ℕ → ℕ → ℚ) (w : ℕ)
    (hw : w < dems.length) (hX : Feasible caps dems X) :
    (demand_rule caps dems X w ↔
      dems.getD w 0 ≤ ∑ f in Finset.range caps.length, X f w) ∧
    dems.getD w 0 ≤ ∑ f in Finset.range caps.length, X f w :=
  ⟨Iff.rfl, hX.2.2 w hw⟩

/-- Witness for C3 at the hardcoded instance, warehouse `0` and the
specification's flow. -/
theorem C3_demand_constraint_witness :
    0 < demands.length ∧ Feasible capacities demands Xstar ∧
    demands.getD 0 0 ≤ ∑ f in Finset.range capacities.length, Xstar f 0 :=
  ⟨by decide, Xstar_feasible,
    (C3_demand_constraint capacities demands Xstar 0 (by decide)
      Xstar_feasible).2⟩

/-- C7: whenever the capacities sum to strictly less than the demands, the
linear program built by the script has no feasible point at all: the solver
must report it infeasible, and no valid `X` exists to report. -/
theorem C7_infeasible_when_capacity_short (caps dems : List ℚ)
    (X : ℕ → ℕ → ℚ) (hlt : caps.sum < dems.sum) :
    ¬ Feasible caps dems X := by
  rintro ⟨hpos, hcap, hdem⟩
  have hT1 : ∑ f in Finset.range caps.length,
      ∑ w in Finset.range dems.length, X f w
      ≤ ∑ f in Finset.range caps.length, caps.getD f 0 := by
    apply Finset.sum_le_sum
    intro f hf
    exact hcap f (Finset.mem_range.mp hf)
  have hT2 : ∑ w in Finset.range dems.length, dems.getD w 0
      ≤ ∑ w in Finset.range dems.length,
        ∑ f in Finset.range caps.length, X f w := by
    apply Finset.sum_le_sum
    intro w hw
    exact hdem w (Finset.mem_range.mp hw)
  have hcomm : ∑ f in Finset.range caps.length,
      ∑ w in Finset.range dems.length, X f w
      = ∑ w in Finset.range dems.length,
        ∑ f in Finset.range caps.length, X f w := Finset.sum_comm
  rw [sum_getD] at hT1 hT2
  linarith

/-- Witness for C7: one facility of capacity `1` cannot meet one warehouse
demanding `2`; in particular the all-zero flow is not feasible. -/
theorem C7_infeasible_witness :
    List.sum [(1 : ℚ)] < List.sum [(2 : ℚ)] ∧
    ¬ Feasible [(1 : ℚ)] [(2 : ℚ)] (fun _ _ => 0) :=
  ⟨by norm_num,
    C7_infeasible_when_capacity_short [(1 : ℚ)] [(2 : ℚ)] (fun _ _ => 0)
      (by norm_num)⟩

/-- C1 fails as stated: the flow the specification names is feasible, but
its objective value is `15`, not `9` (its cost is
`1*2 + 2*3 + 2*2 + 3*1 = 15`), so the optimal value of the built linear
program is not `9` and is not attained with value `9` by this flow. -/
theorem C1_counterexample :
    Feasible capacities demands Xstar ∧ OBJ Xstar = 15 ∧ OBJ Xstar ≠ 9 :=
  ⟨Xstar_feasible, OBJ_Xstar, by rw [OBJ_Xstar]; norm_num⟩

/-- C1, amended: for the hardcoded instance the optimal objective value of
the built linear program is exactly `15`, attained by the flow
`X[0,0]=2, X[1,1]=3, X[2,0]=2, X[2,1]=1`: every feasible `X` costs at least
`15`, and that flow is feasible with cost exactly `15`. -/
theorem C1_amended_optimal_value (X : ℕ → ℕ → ℚ)
    (hX : Feasible capacities demands X) :
    15 ≤ OBJ X ∧ Feasible capacities demands Xstar ∧ OBJ Xstar = 15 := by
  obtain ⟨h00, h01, h10, h11, h20, h21, hc0, hc1, hc2, hd0, hd1⟩ :=
    feasible_ineqs X hX
  refine ⟨?_, Xstar_feasible, OBJ_Xstar⟩
  rw [OBJ_expand]
  linarith

/-- Witness for the amended C1 at the specification's flow itself. -/
theorem C1_amended_witness :
    Feasible capacities demands Xstar ∧ 15 ≤ OBJ Xstar :=
  ⟨Xstar_feasible, (C1_amended_optimal_value Xstar Xstar_feasible).1⟩

/-- C10: the hardcoded instance is balanced: capacities and demands both
sum to `8`, so every feasible `X` ships exactly `8` units in total and
meets every capacity constraint and every demand constraint with
equality. -/
theorem C10_balanced_instance (X : ℕ → ℕ → ℚ)
    (hX : Feasible capacities demands X) :
    capacities.sum = 8 ∧ demands.sum = 8 ∧
    (∑ f in Finset.range nF, ∑ w in Finset.range nW, X f w) = 8 ∧
    (∀ f < nF, ∑ w in Finset.range nW, X f w = capacity f) ∧
    (∀ w < nW, ∑ f in Finset.range nF, X f w = demand w) := by
  obtain ⟨h00, h01, h10, h11, h20, h21, hc0, hc1, hc2, hd0, hd1⟩ :=
    feasible_ineqs X hX
  refine ⟨by norm_num [capacities], by norm_num [demands], ?_, ?_, ?_⟩
  · rw [show nF = 3 from rfl, show nW = 2 from rfl, sum_range_three]
    rw [sum_range_two, sum_range_two, sum_range_two]
    linarith
  · intro f hf
    have hf3 : f < 3 := hf
    interval_cases f <;>
      rw [show nW = 2 from rfl, sum_range_two] <;>
      norm_num [capacity, capacities] <;> linarith
  · intro w hw
    have hw2 : w < 2 := hw
    interval_cases w <;>
      rw [show nF = 3 from rfl, sum_range_three] <;>
      norm_num [demand, demands] <;> linarith

/-- Witness for C10 at the specification's flow. -/
theorem C10_balanced_instance_witness :
    Feasible capacities demands Xstar ∧
    (∑ f in Finset.range nF, ∑ w in Finset.range nW, Xstar f w) = 8 :=
  ⟨Xstar_feasible, (C10_balanced_instance Xstar Xstar_feasible).2.2.1⟩

/-- C4: the objective built by `obj_rule` is exactly the sum over all
`f, w` of `cost[f][w] * X[f,w]` read from the cost matrix, and the value
`model.OBJ()` the script prints equals that sum recomputed independently at
the returned variable values. -/
theorem C4_objective_matches_recomputation (X : ℕ → ℕ → ℚ)
    (r : SolveResults) :
    OBJ X = specObjective X ∧
    OutputLine.objectiveLine (specObjective r.xval) ∈ postSolveOutput r := by
  have hobj : ∀ Y : ℕ → ℕ → ℚ, OBJ Y = specObjective Y := by
    intro Y
    unfold OBJ specObjective cost cost_func
    refine Finset.sum_congr rfl fun f _ => Finset.sum_congr rfl fun w _ => ?_
    congr 1
    cases hrow : costs[f]? with
    | none => simp [List.getD, hrow]
    | some row => simp [List.getD, hrow]
  refine ⟨hobj X, ?_⟩
  rw [← hobj]
  simp [postSolveOutput]

/-- C6 fails as stated: on a solve reported infeasible (not optimal), the
script still performs all of its post-processing — it reads and prints
`X[0,1]`, the capacity duals and the objective value; no check of the
status or termination condition guards those statements, and nothing like a
`SolveError` exists in the script. -/
theorem C6_counterexample :
    infeasibleResults.termination ≠ TerminationCondition.optimal ∧
    OutputLine.singleXValue 0 ∈ postSolveOutput infeasibleResults ∧
    OutputLine.objectiveLine 0 ∈ postSolveOutput infeasibleResults := by
  have h1 : infeasibleResults.xval 0 1 = 0 := rfl
  have h2 : OBJ infeasibleResults.xval = 0 := by
    norm_num [OBJ, infeasibleResults]
  refine ⟨by simp [infeasibleResults], ?_, ?_⟩
  · rw [← h1]; simp [postSolveOutput]
  · rw [← h2]; simp [postSolveOutput]

/-- C6, amended: the script performs its post-processing unconditionally:
whatever status, termination condition and values the solver reports, the
output always contains the extracted value of `X[0,1]`, the termination
condition line and the objective value; non-optimal termination raises no
error and skips nothing. -/
theorem C6_amended_unconditional_postprocessing (r : SolveResults) :
    OutputLine.singleXValue (r.xval 0 1) ∈ postSolveOutput r ∧
    OutputLine.terminationLine r.termination ∈ postSolveOutput r ∧
    OutputLine.objectiveLine (OBJ r.xval) ∈ postSolveOutput r := by
  refine ⟨?_, ?_, ?_⟩ <;> simp [postSolveOutput]

/-- C8 fails as stated: on a successful solve the script prints no dual
price for any demand constraint — the dual loop at lines 136-137 covers
only the capacity constraints (and a comment leaves `DemandCons` to the
reader), although the instance has warehouses. -/
theorem C8_counterexample :
    exampleResults.status = SolverStatus.ok ∧
    exampleResults.termination = TerminationCondition.optimal ∧
    0 < nW ∧
    (postSolveOutput exampleResults).any isDemandDualLine = false := by
  refine ⟨rfl, rfl, by decide, ?_⟩
  rw [List.any_eq_false]
  intro x hx
  simp [no_demand_dual_output exampleResults x hx]

/-- C8, amended: after the solve the script prints the dual price of
`CapacityCons[f]` for every facility `f`, but for no demand constraint:
no line of the output is a demand-constraint dual price. -/
theorem C8_amended_capacity_duals_only (r : SolveResults) (f : ℕ)
    (hf : f < nF) :
    OutputLine.capacityDualLine f (r.capDual f) ∈ postSolveOutput r ∧
    ∀ x ∈ postSolveOutput r, isDemandDualLine x = false := by
  constructor
  · have h1 : OutputLine.capacityDualLine f (r.capDual f) ∈
        (List.range nF).map fun g => OutputLine.capacityDualLine g (r.capDual g) :=
      List.mem_map_of_mem _ (List.mem_range.mpr hf)
    simp only [postSolveOutput, List.mem_append]
    exact Or.inl (Or.inr h1)
  · exact fun x hx => no_demand_dual_output r x hx

/-- Witness for the amended C8 at the example solve, facility `0`. -/
theorem C8_amended_witness :
    0 < nF ∧
    OutputLine.capacityDualLine 0 (exampleResults.capDual 0) ∈
      postSolveOutput exampleResults :=
  ⟨by decide, (C8_amended_capacity_duals_only exampleResults 0 (by decide)).1⟩

/-- C9: a shipment line for the pair `(f, w)` appears in the output exactly
when the returned value of `X[f,w]` is nonzero (and the printed quantity is
that value); pairs whose value is zero produce no line. -/
theorem C9_shipment_printed_iff_nonzero (r : SolveResults) (u : ℚ)
    (f w : ℕ) (hf : f < nF) (hw : w < nW) :
    OutputLine.transportLine u f w ∈ postSolveOutput r ↔
      u = r.xval f w ∧ r.xval f w ≠ 0 := by
  constructor
  · intro hmem
    simp only [postSolveOutput, List.mem_append, List.mem_cons, List.mem_map,
      List.mem_range, List.not_mem_nil, or_false, List.mem_singleton] at hmem
    rcases hmem with ((((h | h | h | h | h) | h) | h) | ⟨g, _, h⟩) | h
    · exact absurd h (by simp)
    · exact absurd h (by simp)
    · exact absurd h (by simp)
    · exact absurd h (by simp)
    · exact absurd h (by simp)
    · simp only [transportLines, List.mem_flatMap, List.mem_filterMap,
        List.mem_range] at h
      obtain ⟨f', _, w', _, hif⟩ := h
      by_cases hc : r.xval f' w' ≠ 0
      · rw [if_pos hc] at hif
        obtain ⟨hu, hf', hw'⟩ := OutputLine.transportLine.inj
          (Option.some.injEq _ _ ▸ hif)
        subst hf'; subst hw'
        exact ⟨hu.symm, hc⟩
      · rw [if_neg hc] at hif
        exact absurd hif (by simp)
    · exact absurd h (by simp)
    · exact absurd h (by simp)
    · exact absurd h (by simp)
  · rintro ⟨hu, hne⟩
    have h1 : OutputLine.transportLine u f w ∈ transportLines r := by
      simp only [transportLines, List.mem_flatMap, List.mem_filterMap,
        List.mem_range]
      exact ⟨f, hf, w, hw, by rw [if_pos hne, hu]⟩
    simp only [postSolveOutput, List.mem_append]
    exact Or.inl (Or.inl (Or.inl (Or.inr h1)))

/-- Witness for C9 at the example solve and the pair `(0, 0)`, whose value
`2` is nonzero and printed. -/
theorem C9_shipment_witness :
    0 < nF ∧ 0 < nW ∧
    OutputLine.transportLine 2 0 0 ∈ postSolveOutput exampleResults :=
  ⟨by decide, by decide,
    (C9_shipment_printed_iff_nonzero exampleResults 2 0 0 (by decide)
      (by decide)).mpr ⟨rfl, by norm_num [exampleResults, Xstar]⟩⟩

/-- C5 fails as stated: a cost matrix with an extra row has
`len(costs) != nF`, yet the script raises nothing — every lookup
`costs[f][w]` it performs is in range, the cost parameter is built and the
solver call is reached; the script contains no shape validation and no
`DimensionError`. -/
theorem C5_counterexample :
    badCosts.length ≠ nF ∧ solverInvoked badCosts nF nW = true :=
  ⟨by decide, by decide⟩

/-- C5, amended: the script reaches the solver call unless building the
cost parameter raises an `IndexError`, which happens exactly when some
accessed entry `costs[f][w]` with `f < nF`, `w < nW` is missing — i.e. the
cost matrix has fewer than `nF` rows (when `nW > 0`) or some accessed row
is shorter than `nW`.  Shape mismatches leaving all accessed entries
present (extra rows, overlong rows) are not detected. -/
theorem C5_amended_fail_iff_missing_entry (cs : List (List ℚ))
    (numF numW : ℕ) :
    solverInvoked cs numF numW = false ↔
      ∃ f < numF, ∃ w < numW, cost_func cs f w = none := by
  unfold solverInvoked paramConstructionOk
  simp [List.all_eq_false, Option.not_isSome_iff_eq_none]

end Transportation
